import Mathlib

/-!
Verification of the rate-limited enrichment-and-inference pipeline
(`ai_groq_predict_groq.py`, `update_eps.py`) of the StockDashboard
repository, against its natural-language specification.

The Python sources are shallowly embedded: pure helpers become Lean
functions over `ℚ`/`ℤ`/`String`, external library calls (yfinance,
dateutil, pandas std, json.dumps, the Groq client) become function
parameters, a raised exception becomes `Except.error`, Python `None`
becomes `Option.none`, and the wall clock of the rate limiter becomes an
explicit rational "current time" threaded through the computation.
-/

namespace StockDashboard

/-! ## Sentiment heuristic (`purpose_sentiment`, ai_groq_predict_groq.py lines 136-150)

Python substring containment `needle in t` is embedded as infix search on
the character lists; `(purpose + " " + bm_desc).lower()` as `String.toLower`
on the concatenation.  The source accumulates `score : float` and
`reasons : list` through three independent `if`s and returns
`score, "; ".join(reasons)`. -/

/-- Python `str.lower()` on the ASCII text handled here, written on the
character list so that it evaluates by kernel reduction. -/
def strToLower (s : String) : String := String.mk (s.toList.map Char.toLower)

/-- Python substring containment `needle in t`. -/
def containsStr (t needle : String) : Bool :=
  t.toList.tails.any (fun suf => needle.toList.isPrefixOf suf)

def dilutionTerms : List String :=
  ["rights issue", "fund raising", "preferential", "capital raise"]

/-- The `(score, reasons)` pair accumulated by the body of
`purpose_sentiment` just before the `return` line joins the reasons. -/
def purpose_sentiment_full (purpose bm_desc : String) : ℚ × List String :=
  ((if containsStr (strToLower (purpose ++ " " ++ bm_desc)) "dividend" then 1/5 else 0) +
     (if containsStr (strToLower (purpose ++ " " ++ bm_desc)) "results" then 1/20 else 0) +
     (if dilutionTerms.any (fun x => containsStr (strToLower (purpose ++ " " ++ bm_desc)) x) then
        -(3/10) else 0),
   (if containsStr (strToLower (purpose ++ " " ++ bm_desc)) "dividend" then
      ["dividend mentioned"] else []) ++
     (if dilutionTerms.any (fun x => containsStr (strToLower (purpose ++ " " ++ bm_desc)) x) then
        ["dilution-related terms"] else []))

/-- `purpose_sentiment` as returned to the caller: the reason tags are
joined with `"; "` (source line 150: `return score, "; ".join(reasons)`). -/
def purpose_sentiment (purpose bm_desc : String) : ℚ × String :=
  ((purpose_sentiment_full purpose bm_desc).1,
   String.intercalate "; " (purpose_sentiment_full purpose bm_desc).2)

/-- C5: the sentiment scorer is a pure deterministic function; its reason
tags form an ordered list which the function returns joined with `"; "`;
text containing only "dividend" scores `0.2` with reasons
`["dividend mentioned"]`, text containing only "rights issue" scores
`-0.3`, and text containing both scores `-0.1`. -/
theorem purpose_sentiment_c5 :
    (∀ p b, purpose_sentiment p b =
      ((purpose_sentiment_full p b).1,
       String.intercalate "; " (purpose_sentiment_full p b).2)) ∧
    purpose_sentiment_full "dividend" "" = (1/5, ["dividend mentioned"]) ∧
    purpose_sentiment "dividend" "" = (1/5, "dividend mentioned") ∧
    purpose_sentiment_full "rights issue" "" = (-(3/10), ["dilution-related terms"]) ∧
    (purpose_sentiment "rights issue" "").1 = -(3/10) ∧
    (purpose_sentiment "dividend rights issue" "").1 = -(1/10) := by
  refine ⟨fun p b => rfl, ?_, ?_, ?_, ?_, ?_⟩ <;>
    simp +decide [purpose_sentiment, purpose_sentiment_full] <;> norm_num

/-- C10: for every pair of input text fields the sentiment score lies in
`[-0.3, 0.25]`: it is a sum of a subset of `{+0.2, +0.05, -0.3}`. -/
theorem purpose_sentiment_c10 (p b : String) :
    -(3/10) ≤ (purpose_sentiment p b).1 ∧ (purpose_sentiment p b).1 ≤ 1/4 := by
  unfold purpose_sentiment purpose_sentiment_full
  split_ifs <;> norm_num

/-! ## Sliding-window rate limiter (`throttle_requests`, ai_groq_predict_groq.py lines 60-72)

The wall clock is made explicit: a call happening at time `now` first pops
timestamps older than 60 seconds from the front of the FIFO queue, then, if
the queue still holds at least `MAX_REQS_PER_MIN` timestamps, sleeps for
`60 - (now - oldest) + 0.1` seconds, and finally appends the current time
(i.e. the post-sleep time).  `throttle_requests` returns the completion
time together with the updated queue; `runThrottle` runs a sequence of
calls, each arriving a non-negative `gap` after the previous one
completed. -/

def MAX_REQS_PER_MIN : ℕ := 30

/-- The `while` loop popping timestamps older than 60 seconds from the
front of the deque. -/
def evictOld (now : ℚ) : List ℚ → List ℚ
  | [] => []
  | t :: ts => if 60 < now - t then evictOld now ts else t :: ts

def throttle_requests (now : ℚ) (q : List ℚ) : ℚ × List ℚ :=
  if MAX_REQS_PER_MIN ≤ (evictOld now q).length then
    (now + (60 - (now - (evictOld now q).headI) + 1/10),
     evictOld now q ++ [now + (60 - (now - (evictOld now q).headI) + 1/10)])
  else
    (now, evictOld now q ++ [now])

/-- Completed acquisition times of a sequence of calls, the `i`-th call
arriving `gaps[i] ≥ 0` seconds after the previous call returned. -/
def runThrottle : List ℚ → ℚ → List ℚ → List ℚ
  | [], _, _ => []
  | g :: gs, now, q =>
    (throttle_requests (now + g) q).1 ::
      runThrottle gs (throttle_requests (now + g) q).1 (throttle_requests (now + g) q).2

/-- Number of acquisition times falling in the trailing 60-second window
ending at `w`. -/
def windowCount (w : ℚ) (l : List ℚ) : ℕ :=
  l.countP (fun a => decide (w - 60 ≤ a ∧ a ≤ w))

/-- Invariant tying the limiter queue `q` to the set `past` of all
acquisition times granted so far, at current time `now`. -/
structure LimiterInv (now : ℚ) (q past : List ℚ) : Prop where
  evicted : ∃ e, past = e ++ q ∧ ∀ x ∈ e, x < now - 60
  window : ∀ w : ℚ, windowCount w past ≤ MAX_REQS_PER_MIN
  size : q.length ≤ MAX_REQS_PER_MIN + 1
  staleHead : q.length = MAX_REQS_PER_MIN + 1 → ∃ f r, q = f :: r ∧ f < now - 60

theorem evictOld_split (now : ℚ) (q : List ℚ) :
    ∃ d, q = d ++ evictOld now q ∧ ∀ x ∈ d, x < now - 60 := by
  induction q with
  | nil => exact ⟨[], rfl, by simp⟩
  | cons t ts ih =>
    by_cases h : 60 < now - t
    · obtain ⟨d, hd, hdlt⟩ := ih
      refine ⟨t :: d, ?_, ?_⟩
      · simp [evictOld, h]
        exact hd
      · intro x hx
        rcases List.mem_cons.mp hx with rfl | hx
        · linarith
        · exact hdlt x hx
    · exact ⟨[], by simp [evictOld, h], by simp⟩

theorem evictOld_head {now f : ℚ} {q r : List ℚ} (h : evictOld now q = f :: r) :
    now - f ≤ 60 := by
  induction q with
  | nil => simp [evictOld] at h
  | cons t ts ih =>
    by_cases hc : 60 < now - t
    · rw [evictOld, if_pos hc] at h
      exact ih h
    · rw [evictOld, if_neg hc] at h
      cases h
      linarith

/-- After eviction the queue holds at most `MAX_REQS_PER_MIN` timestamps:
it can only exceed that bound by one, and then its head is already stale
and gets popped. -/
theorem evictOld_len {now : ℚ} {q : List ℚ}
    (hsize : q.length ≤ MAX_REQS_PER_MIN + 1)
    (hstale : q.length = MAX_REQS_PER_MIN + 1 → ∃ f r, q = f :: r ∧ f < now - 60) :
    (evictOld now q).length ≤ MAX_REQS_PER_MIN := by
  rcases Nat.lt_or_ge q.length (MAX_REQS_PER_MIN + 1) with hlt | hge
  · obtain ⟨d, hd, -⟩ := evictOld_split now q
    have := congrArg List.length hd
    rw [List.length_append] at this
    omega
  · obtain ⟨f, r, rfl, hf⟩ := hstale (le_antisymm hsize hge)
    have hc : 60 < now - f := by linarith
    rw [evictOld, if_pos hc]
    obtain ⟨d, hd, -⟩ := evictOld_split now r
    have h1 := congrArg List.length hd
    rw [List.length_append] at h1
    have h2 : (f :: r).length = MAX_REQS_PER_MIN + 1 := le_antisymm hsize hge
    simp at h2
    omega

theorem windowCount_append (w : ℚ) (l₁ l₂ : List ℚ) :
    windowCount w (l₁ ++ l₂) = windowCount w l₁ + windowCount w l₂ :=
  List.countP_append _ _ _

theorem windowCount_of_stale {w : ℚ} {l : List ℚ}
    (h : ∀ x ∈ l, x < w - 60) : windowCount w l = 0 := by
  rw [windowCount, List.countP_eq_zero]
  intro a ha
  have := h a ha
  simp only [decide_eq_true_eq, not_and]
  intro h1
  linarith

theorem windowCount_le_length (w : ℚ) (l : List ℚ) :
    windowCount w l ≤ l.length :=
  List.countP_le_length _

theorem throttle_requests_of_nil {now : ℚ} {q : List ℚ}
    (h : evictOld now q = []) : throttle_requests now q = (now, [now]) := by
  unfold throttle_requests
  rw [h]
  norm_num [MAX_REQS_PER_MIN]

theorem throttle_requests_of_lt {now f : ℚ} {q r : List ℚ}
    (h : evictOld now q = f :: r) (hlen : (f :: r).length < MAX_REQS_PER_MIN) :
    throttle_requests now q = (now, (f :: r) ++ [now]) := by
  unfold throttle_requests
  rw [h, if_neg (not_le.mpr hlen)]

theorem throttle_requests_of_ge {now f : ℚ} {q r : List ℚ}
    (h : evictOld now q = f :: r) (hlen : MAX_REQS_PER_MIN ≤ (f :: r).length) :
    throttle_requests now q =
      (now + (60 - (now - f) + 1/10), (f :: r) ++ [now + (60 - (now - f) + 1/10)]) := by
  unfold throttle_requests
  rw [h, if_pos hlen]
  rfl

theorem windowCount_cons_of_not {w a : ℚ} (l : List ℚ) (h : ¬(w - 60 ≤ a ∧ a ≤ w)) :
    windowCount w (a :: l) = windowCount w l := by
  unfold windowCount
  rw [List.countP_cons]
  simp only [decide_eq_false h]
  simp

/-- One acquisition keeps the window bound: appending the completion time
`fin` keeps every trailing window at `≤ 30` provided the already-evicted
timestamps are stale relative to `fin` and the current queue leaves room
for one more inside any window containing `fin`. -/
theorem window_step {w fin : ℚ} {e' q1 : List ℚ}
    (hwin : ∀ w' : ℚ, windowCount w' (e' ++ q1) ≤ MAX_REQS_PER_MIN)
    (hstale : ∀ x ∈ e', x < fin - 60)
    (hq1 : w - 60 ≤ fin → fin ≤ w → windowCount w q1 + 1 ≤ MAX_REQS_PER_MIN) :
    windowCount w ((e' ++ q1) ++ [fin]) ≤ MAX_REQS_PER_MIN := by
  rw [windowCount_append]
  by_cases hw : w - 60 ≤ fin ∧ fin ≤ w
  · have h0 : windowCount w e' = 0 :=
      windowCount_of_stale (fun x hx => by
        have h1 := hstale x hx
        have h2 := hw.2
        linarith)
    have hs : windowCount w [fin] ≤ 1 := by
      simpa using windowCount_le_length w [fin]
    rw [windowCount_append, h0]
    have := hq1 hw.1 hw.2
    omega
  · have hz : windowCount w [fin] = 0 := by
      rw [windowCount_cons_of_not _ hw]
      simp [windowCount]
    rw [hz]
    have := hwin w
    omega

/-- One call of `throttle_requests` preserves the limiter invariant and
never moves time backwards. -/
theorem throttle_requests_step {now : ℚ} {q past : List ℚ}
    (h : LimiterInv now q past) {g : ℚ} (hg : 0 ≤ g) :
    LimiterInv (throttle_requests (now + g) q).1 (throttle_requests (now + g) q).2
        (past ++ [(throttle_requests (now + g) q).1]) ∧
      now ≤ (throttle_requests (now + g) q).1 := by
  have hM : MAX_REQS_PER_MIN = 30 := rfl
  set n := now + g with hn
  have hq1len : (evictOld n q).length ≤ MAX_REQS_PER_MIN := by
    apply evictOld_len h.size
    intro hlen
    obtain ⟨f, r, hq, hf⟩ := h.staleHead hlen
    exact ⟨f, r, hq, by linarith⟩
  obtain ⟨d, hd, hdlt⟩ := evictOld_split n q
  obtain ⟨e, he, helt⟩ := h.evicted
  have hstale_ed : ∀ x ∈ e ++ d, x < n - 60 := by
    intro x hx
    rcases List.mem_append.mp hx with hx | hx
    · have := helt x hx
      linarith
    · exact hdlt x hx
  have hpast : past = (e ++ d) ++ evictOld n q := by
    rw [List.append_assoc, ← hd, ← he]
  have hwin' : ∀ w' : ℚ, windowCount w' ((e ++ d) ++ evictOld n q) ≤ MAX_REQS_PER_MIN := by
    intro w'
    rw [← hpast]
    exact h.window w'
  cases hq1 : evictOld n q with
  | nil =>
    rw [throttle_requests_of_nil hq1]
    dsimp only
    refine ⟨⟨⟨e ++ d, ?_, fun x hx => hstale_ed x hx⟩, ?_, ?_, ?_⟩, by linarith⟩
    · rw [hpast, hq1]
      simp
    · intro w
      have hp : past ++ [n] = ((e ++ d) ++ ([] : List ℚ)) ++ [n] := by
        rw [hpast, hq1]
      rw [hp]
      refine window_step (by rw [← hq1]; exact hwin') hstale_ed ?_
      intro _ _
      rw [hM]
      simp [windowCount]
    · rw [hM]
      simp
    · intro habs
      rw [hM] at habs
      simp at habs
  | cons f r =>
    rcases Nat.lt_or_ge (f :: r).length MAX_REQS_PER_MIN with hlen | hlen
    · -- below capacity: append `n` directly
      rw [throttle_requests_of_lt hq1 hlen]
      dsimp only
      have hrlen : r.length + 1 < 30 := by
        rw [hM] at hlen
        simpa using hlen
      refine ⟨⟨⟨e ++ d, ?_, fun x hx => hstale_ed x hx⟩, ?_, ?_, ?_⟩, by linarith⟩
      · rw [hpast, hq1, List.append_assoc]
      · intro w
        have hp : past ++ [n] = ((e ++ d) ++ (f :: r)) ++ [n] := by
          rw [hpast, hq1]
        rw [hp]
        refine window_step (by rw [← hq1]; exact hwin') hstale_ed ?_
        intro _ _
        have hc := windowCount_le_length w (f :: r)
        rw [List.length_cons] at hc
        omega
      · rw [hM]
        simp only [List.length_append, List.length_cons, List.length_nil]
        omega
      · intro habs
        rw [hM] at habs
        simp only [List.length_append, List.length_cons, List.length_nil] at habs
        exfalso
        omega
    · -- at capacity: sleep until the oldest timestamp is 60.1s old, then append
      have hflen : r.length + 1 = 30 := by
        rw [hq1] at hq1len
        rw [hM] at hq1len hlen
        simp only [List.length_cons] at hq1len hlen
        omega
      have hfr : n - f ≤ 60 := evictOld_head hq1
      rw [throttle_requests_of_ge hq1 hlen]
      dsimp only
      have hfin : n + (60 - (n - f) + 1/10) = f + 60 + 1/10 := by ring
      refine ⟨⟨⟨e ++ d, ?_, ?_⟩, ?_, ?_, ?_⟩, by linarith⟩
      · rw [hpast, hq1, List.append_assoc]
      · intro x hx
        have := hstale_ed x hx
        linarith
      · intro w
        have hp : past ++ [n + (60 - (n - f) + 1/10)] =
            ((e ++ d) ++ (f :: r)) ++ [n + (60 - (n - f) + 1/10)] := by
          rw [hpast, hq1]
        rw [hp]
        refine window_step (by rw [← hq1]; exact hwin') (fun x hx => by
          have := hstale_ed x hx
          linarith) ?_
        intro hw1 hw2
        have hfw : ¬ (w - 60 ≤ f ∧ f ≤ w) := by
          intro habs
          rw [hfin] at hw2
          linarith [habs.1]
        rw [windowCount_cons_of_not r hfw]
        have hc := windowCount_le_length w r
        omega
      · rw [hM]
        simp only [List.length_append, List.length_cons, List.length_nil]
        omega
      · intro _
        refine ⟨f, r ++ [n + (60 - (n - f) + 1/10)], by simp, by linarith⟩

/-- Running any sequence of non-negatively spaced calls from an invariant
state keeps every trailing 60-second window at `≤ 30` acquisitions. -/
theorem runThrottle_window :
    ∀ (gaps : List ℚ), (∀ g ∈ gaps, 0 ≤ g) →
    ∀ {now : ℚ} {q past : List ℚ}, LimiterInv now q past →
    ∀ w : ℚ, windowCount w (past ++ runThrottle gaps now q) ≤ MAX_REQS_PER_MIN
  | [], _, _, _, past, h, w => by
    simpa [runThrottle] using h.window w
  | g :: gs, hg, now, q, past, h, w => by
    have hstep := throttle_requests_step h (hg g (by simp))
    have hrec := runThrottle_window gs (fun x hx => hg x (by simp [hx]))
      hstep.1 w
    rw [runThrottle]
    rw [show past ++ ((throttle_requests (now + g) q).1 ::
          runThrottle gs (throttle_requests (now + g) q).1 (throttle_requests (now + g) q).2) =
        (past ++ [(throttle_requests (now + g) q).1]) ++
          runThrottle gs (throttle_requests (now + g) q).1 (throttle_requests (now + g) q).2 by
      simp]
    exact hrec

/-- C3: for any sequence of calls to `throttle_requests` (each arriving a
non-negative time gap after the previous one completed, starting from an
empty queue), every trailing 60-second window contains at most
`MAX_REQS_PER_MIN = 30` completed acquisitions: the enforced sleep defers
each over-quota acquisition until admitting it no longer exceeds the
bound. -/
theorem throttle_requests_c3 (gaps : List ℚ) (hg : ∀ g ∈ gaps, 0 ≤ g) (w : ℚ) :
    windowCount w (runThrottle gaps 0 []) ≤ MAX_REQS_PER_MIN := by
  have hinv : LimiterInv 0 [] [] := by
    refine ⟨⟨[], by simp, by simp⟩, fun w' => by simp [windowCount, MAX_REQS_PER_MIN], by simp, by simp⟩
  simpa using runThrottle_window gaps hg hinv w

/-- Witness for C3 at a concrete input: three back-to-back calls. -/
theorem throttle_requests_c3_witness :
    windowCount 50 (runThrottle [0, 0, 0] 0 []) ≤ MAX_REQS_PER_MIN :=
  throttle_requests_c3 [0, 0, 0] (by intro g hg; fin_cases hg <;> norm_num) 50

/-! ## Retrying EPS fetcher (`safe_fetch_forward_eps`, update_eps.py lines 13-45)

The Yahoo lookup of one attempt is a parameter
`f : ℕ → Except String (Option ℚ)`: `Except.error` is a raised exception,
`Except.ok none` is a response whose `forwardEps` field is missing (the
source then raises `ValueError("Missing EPS data")`, landing in the same
`except` branch), and `Except.ok (some eps)` is a successful lookup.
`random.uniform(-RANDOM_JITTER, RANDOM_JITTER)` of attempt `a` is the
parameter `js a`.  The loop returns the fetched value (`none` after
exhaustion), the number of attempts performed, and the list of backoff
delays slept between attempts. -/

def MAX_RETRIES : ℕ := 3

def BASE_DELAY : ℚ := 3/2

def BACKOFF_FACTOR : ℚ := 2

def RANDOM_JITTER : ℚ := 3/10

/-- The delay computed before retry `attempt`:
`BASE_DELAY * BACKOFF_FACTOR ** (attempt - 1)` plus the drawn jitter. -/
def backoff_delay (attempt : ℕ) (jitter : ℚ) : ℚ :=
  BASE_DELAY * BACKOFF_FACTOR ^ (attempt - 1) + jitter

/-- The `for attempt in range(1, MAX_RETRIES + 1)` loop; `fuel` counts the
iterations the `range` still allows, so `attempt + fuel = MAX_RETRIES + 1`
at every call. -/
def fetchLoop (f : ℕ → Except String (Option ℚ)) (js : ℕ → ℚ) :
    ℕ → ℕ → Option ℚ × ℕ × List ℚ
  | _, 0 => (none, 0, [])
  | attempt, fuel + 1 =>
    match f attempt with
    | .ok (some eps) => (some eps, 1, [])
    | _ =>
      if attempt = MAX_RETRIES then (none, 1, [])
      else
        ((fetchLoop f js (attempt + 1) fuel).1,
         (fetchLoop f js (attempt + 1) fuel).2.1 + 1,
         backoff_delay attempt (js attempt) :: (fetchLoop f js (attempt + 1) fuel).2.2)

def safe_fetch_forward_eps (f : ℕ → Except String (Option ℚ)) (js : ℕ → ℚ) :
    Option ℚ × ℕ × List ℚ :=
  fetchLoop f js 1 MAX_RETRIES

/-- C4: if the lookup fails on every attempt (raises, or returns a payload
with no `forwardEps`), the fetcher performs exactly `MAX_RETRIES = 3`
attempts, then returns `none` ("not found") without raising. -/
theorem safe_fetch_forward_eps_c4 (f : ℕ → Except String (Option ℚ)) (js : ℕ → ℚ)
    (hfail : ∀ a eps, f a ≠ Except.ok (some eps)) :
    (safe_fetch_forward_eps f js).1 = none ∧
      (safe_fetch_forward_eps f js).2.1 = MAX_RETRIES := by
  have h1 := hfail 1
  have h2 := hfail 2
  have h3 := hfail 3
  unfold safe_fetch_forward_eps MAX_RETRIES
  rw [fetchLoop]
  rcases hf1 : f 1 with e | v
  · rw [fetchLoop]
    rcases hf2 : f 2 with e2 | v2
    · rw [fetchLoop]
      rcases hf3 : f 3 with e3 | v3
      · simp [MAX_RETRIES]
      · rcases v3 with - | eps3
        · simp [MAX_RETRIES]
        · exact absurd hf3 (h3 eps3)
    · rcases v2 with - | eps2
      · rw [fetchLoop]
        rcases hf3 : f 3 with e3 | v3
        · simp [MAX_RETRIES]
        · rcases v3 with - | eps3
          · simp [MAX_RETRIES]
          · exact absurd hf3 (h3 eps3)
      · exact absurd hf2 (h2 eps2)
  · rcases v with - | eps1
    · rw [fetchLoop]
      rcases hf2 : f 2 with e2 | v2
      · rw [fetchLoop]
        rcases hf3 : f 3 with e3 | v3
        · simp [MAX_RETRIES]
        · rcases v3 with - | eps3
          · simp [MAX_RETRIES]
          · exact absurd hf3 (h3 eps3)
      · rcases v2 with - | eps2
        · rw [fetchLoop]
          rcases hf3 : f 3 with e3 | v3
          · simp [MAX_RETRIES]
          · rcases v3 with - | eps3
            · simp [MAX_RETRIES]
            · exact absurd hf3 (h3 eps3)
        · exact absurd hf2 (h2 eps2)
    · exact absurd hf1 (h1 eps1)

/-- Witness for C4: a lookup that always raises. -/
theorem safe_fetch_forward_eps_c4_witness :
    (safe_fetch_forward_eps (fun _ => Except.error "HTTP 429") (fun _ => 0)).1 = none ∧
      (safe_fetch_forward_eps (fun _ => Except.error "HTTP 429") (fun _ => 0)).2.1 =
        MAX_RETRIES :=
  safe_fetch_forward_eps_c4 _ _ (fun a eps h => by simp at h)

theorem one_le_backoff_pow (e : ℕ) : 1 ≤ BACKOFF_FACTOR ^ e := by
  induction e with
  | zero => norm_num
  | succ k ih =>
    rw [pow_succ]
    unfold BACKOFF_FACTOR at ih ⊢
    nlinarith

/-- Every delay slept by `fetchLoop` starting at attempt `a0 ≥ 1` is the
backoff formula of some attempt number and is non-negative when the jitter
draws stay within `±RANDOM_JITTER`. -/
theorem fetchLoop_delays (f : ℕ → Except String (Option ℚ)) (js : ℕ → ℚ)
    (hj : ∀ a, -RANDOM_JITTER ≤ js a ∧ js a ≤ RANDOM_JITTER) :
    ∀ fuel a0, 1 ≤ a0 →
      ∀ d ∈ (fetchLoop f js a0 fuel).2.2,
        (∃ a, 1 ≤ a ∧ d = BASE_DELAY * BACKOFF_FACTOR ^ (a - 1) + js a) ∧ 0 ≤ d := by
  intro fuel
  induction fuel with
  | zero =>
    intro a0 _ d hd
    simp [fetchLoop] at hd
  | succ k ih =>
    intro a0 ha0 d hd
    rw [fetchLoop] at hd
    rcases hf : f a0 with e | v
    · rw [hf] at hd
      by_cases hmax : a0 = MAX_RETRIES
      · simp [hmax] at hd
      · rw [if_neg hmax] at hd
        rcases List.mem_cons.mp hd with rfl | hd
        · refine ⟨⟨a0, ha0, rfl⟩, ?_⟩
          unfold backoff_delay
          have := (hj a0).1
          have := one_le_backoff_pow (a0 - 1)
          unfold BASE_DELAY RANDOM_JITTER at *
          nlinarith
        · exact ih (a0 + 1) (by omega) d hd
    · rcases v with - | eps
      · rw [hf] at hd
        by_cases hmax : a0 = MAX_RETRIES
        · simp [hmax] at hd
        · rw [if_neg hmax] at hd
          rcases List.mem_cons.mp hd with rfl | hd
          · refine ⟨⟨a0, ha0, rfl⟩, ?_⟩
            unfold backoff_delay
            have := (hj a0).1
            have := one_le_backoff_pow (a0 - 1)
            unfold BASE_DELAY RANDOM_JITTER at *
            nlinarith
          · exact ih (a0 + 1) (by omega) d hd
      · rw [hf] at hd
        simp at hd

/-- C6: for every retry attempt `a ≥ 1` and every jitter draw within
`±RANDOM_JITTER`, the delay computed by the fetcher equals
`BASE_DELAY * BACKOFF_FACTOR ^ (a - 1) + jitter` and is non-negative; in
particular every delay actually slept by `safe_fetch_forward_eps` is of
this form and non-negative. -/
theorem backoff_delay_c6 (a : ℕ) (j : ℚ) (ha : 1 ≤ a)
    (hj1 : -RANDOM_JITTER ≤ j) (hj2 : j ≤ RANDOM_JITTER) :
    backoff_delay a j = BASE_DELAY * BACKOFF_FACTOR ^ (a - 1) + j ∧
      0 ≤ backoff_delay a j ∧
      ∀ (f : ℕ → Except String (Option ℚ)) (js : ℕ → ℚ),
        (∀ x, -RANDOM_JITTER ≤ js x ∧ js x ≤ RANDOM_JITTER) →
        ∀ d ∈ (safe_fetch_forward_eps f js).2.2, 0 ≤ d := by
  refine ⟨rfl, ?_, ?_⟩
  · unfold backoff_delay
    have := one_le_backoff_pow (a - 1)
    unfold BASE_DELAY RANDOM_JITTER at *
    nlinarith
  · intro f js hjs d hd
    exact (fetchLoop_delays f js hjs MAX_RETRIES 1 le_rfl d hd).2

/-- Witness for C6: attempt 2 with jitter `-0.3` sleeps
`1.5 * 2 - 0.3 = 2.7 ≥ 0`. -/
theorem backoff_delay_c6_witness :
    backoff_delay 2 (-(3/10)) = BASE_DELAY * BACKOFF_FACTOR ^ (2 - 1) + (-(3/10)) ∧
      0 ≤ backoff_delay 2 (-(3/10)) ∧
      ∀ (f : ℕ → Except String (Option ℚ)) (js : ℕ → ℚ),
        (∀ x, -RANDOM_JITTER ≤ js x ∧ js x ≤ RANDOM_JITTER) →
        ∀ d ∈ (safe_fetch_forward_eps f js).2.2, 0 ≤ d :=
  backoff_delay_c6 2 (-(3/10)) (by norm_num)
    (by norm_num [RANDOM_JITTER]) (by norm_num [RANDOM_JITTER])

/-! ## Price features (`fetch_price_features`, ai_groq_predict_groq.py lines 101-134)

The yfinance history is a parameter: each row is `(close?, volume)` with
`close? = none` for a NaN close (dropped by `dropna()`).  The pandas
standard deviation of the last 30 volumes is an opaque parameter `std`.
An empty history, an all-NaN close column, or a raised fetch exception all
make the source return the empty dict `{}`, embedded as `none`. -/

structure PriceFeatures where
  last_price : ℚ
  pct_7 : Option ℚ
  pct_30 : Option ℚ
  sma20 : Option ℚ
  vol_30 : Option ℚ
deriving Repr, DecidableEq

/-- `hist["Close"].dropna()`. -/
def closeSeries (hist : List (Option ℚ × ℚ)) : List ℚ :=
  (hist.map Prod.fst).filterMap id

/-- The inner `pct(n)` helper: `close.iloc[-1] / close.iloc[-n-1] - 1`
when `len(close) > n`, else `None`. -/
def pct (close : List ℚ) (n : ℕ) : Option ℚ :=
  if n < close.length then
    some (close.getLastD 0 / close.getD (close.length - 1 - n) 0 - 1)
  else none

/-- Body of `fetch_price_features` applied to a successfully fetched
history. -/
def price_features (std : List ℚ → ℚ) (hist : List (Option ℚ × ℚ)) :
    Option PriceFeatures :=
  if hist.isEmpty then none
  else if (closeSeries hist).isEmpty then none
  else some
    { last_price := (closeSeries hist).getLastD 0
      pct_7 := pct (closeSeries hist) 6
      pct_30 := pct (closeSeries hist) 22
      sma20 :=
        if 20 ≤ (closeSeries hist).length then
          some (((closeSeries hist).drop ((closeSeries hist).length - 20)).sum / 20)
        else none
      vol_30 :=
        if 30 ≤ hist.length then
          some (std ((hist.map Prod.snd).drop (hist.length - 30)))
        else none }

/-- `fetch_price_features`: the surrounding `try`/`except` returns `{}`
on any raised exception. -/
def fetch_price_features (std : List ℚ → ℚ)
    (fetchHist : String → Except String (List (Option ℚ × ℚ))) (symbol : String) :
    Option PriceFeatures :=
  match fetchHist symbol with
  | .error _ => none
  | .ok hist => price_features std hist

theorem iteSomeNone {c : Prop} [Decidable c] {x : ℚ} :
    (if c then some x else none) = none ↔ ¬ c := by
  split_ifs with h <;> simp [h]

/-- C8 counterexample: for a symbol whose history comes back empty the
produced feature set is the empty dict — it contains no field at all, in
particular no last price and no explicitly-null entries. -/
theorem fetch_price_features_c8_counterexample :
    fetch_price_features (fun _ => 0) (fun _ => Except.ok []) "RELIANCE" = none := rfl

/-- C8 (amended): for every symbol whose fetched history has a nonempty
close column, the feature set contains the last price, `pct_7` (null iff
at most 6 close samples), `pct_30` (null iff at most 22 close samples),
the 20-period moving average (null iff fewer than 20 close samples) and
the 30-sample volume standard deviation (null iff fewer than 30 history
rows); absent fields are null, never zero.  On an empty history, an
all-NaN close column, or a fetch error, the whole feature set is the
empty dict. -/
theorem price_features_c8 (std : List ℚ → ℚ) (hist : List (Option ℚ × ℚ))
    (hne : closeSeries hist ≠ []) :
    ∃ pf, price_features std hist = some pf ∧
      pf.last_price = (closeSeries hist).getLastD 0 ∧
      (pf.pct_7 = none ↔ (closeSeries hist).length ≤ 6) ∧
      (pf.pct_30 = none ↔ (closeSeries hist).length ≤ 22) ∧
      (pf.sma20 = none ↔ (closeSeries hist).length < 20) ∧
      (pf.vol_30 = none ↔ hist.length < 30) := by
  have hh : hist ≠ [] := by
    intro habs
    rw [habs] at hne
    exact hne rfl
  unfold price_features
  rw [if_neg (by simpa using hh), if_neg (by simpa using hne)]
  refine ⟨_, rfl, rfl, ?_, ?_, ?_, ?_⟩
  · dsimp only
    unfold pct
    rw [iteSomeNone]
    omega
  · dsimp only
    unfold pct
    rw [iteSomeNone]
    omega
  · dsimp only
    rw [iteSomeNone]
    omega
  · dsimp only
    rw [iteSomeNone]
    omega

/-- Witness for C8 (amended) at a one-row history. -/
theorem price_features_c8_witness :
    ∃ pf, price_features (fun _ => 0) [(some 100, 5)] = some pf ∧
      pf.last_price = (closeSeries [(some 100, 5)]).getLastD 0 ∧
      (pf.pct_7 = none ↔ (closeSeries [(some 100, 5)]).length ≤ 6) ∧
      (pf.pct_30 = none ↔ (closeSeries [(some 100, 5)]).length ≤ 22) ∧
      (pf.sma20 = none ↔ (closeSeries [(some 100, 5)]).length < 20) ∧
      (pf.vol_30 = none ↔ ([(some 100, 5)] : List (Option ℚ × ℚ)).length < 30) :=
  price_features_c8 (fun _ => 0) [(some 100, 5)] (by simp [closeSeries])

/-! ## JSON values and `json.loads` (used by `extract_json`, ai_groq_predict_groq.py lines 164-167)

A recursive-descent model of Python's `json.loads`: values are objects,
arrays, strings, numbers, `true`/`false`/`null`, with the four JSON
whitespace characters skipped between tokens.  The parser is written over
the character list with explicit fuel so that it is structurally recursive
and evaluates by kernel reduction; `2 * length + 2` fuel always suffices
because at least one character is consumed for every two recursion
levels.  A failed decode is Python's raised `json.JSONDecodeError`. -/

inductive JsonVal where
  | null
  | bool (b : Bool)
  | num (q : ℚ)
  | str (s : String)
  | arr (elems : List JsonVal)
  | obj (fields : List (String × JsonVal))

def skipWs : List Char → List Char
  | [] => []
  | c :: cs => if c = ' ' ∨ c = '\t' ∨ c = '\n' ∨ c = '\r' then skipWs cs else c :: cs

def hexDigit (c : Char) : Option ℕ :=
  if c.isDigit then some (c.toNat - 48)
  else if 'a' ≤ c ∧ c ≤ 'f' then some (c.toNat - 87)
  else if 'A' ≤ c ∧ c ≤ 'F' then some (c.toNat - 55)
  else none

/-- Characters of a JSON string literal after the opening quote, with the
standard escapes (`\uXXXX` is mapped to the code point; surrogate pairing
is not rejoined, which no input handled here exercises). -/
def parseStrChars : ℕ → List Char → Option (List Char × List Char)
  | 0, _ => none
  | _ + 1, [] => none
  | fuel + 1, c :: cs =>
    if c = '"' then some ([], cs)
    else if c = '\\' then
      match cs with
      | [] => none
      | 'u' :: h1 :: h2 :: h3 :: h4 :: rest =>
        match hexDigit h1, hexDigit h2, hexDigit h3, hexDigit h4 with
        | some a, some b, some c1, some d =>
          match parseStrChars fuel rest with
          | some (s, r) => some (Char.ofNat (((a * 16 + b) * 16 + c1) * 16 + d) :: s, r)
          | none => none
        | _, _, _, _ => none
      | e :: cs1 =>
        match
          (if e = 'n' then some '\n' else if e = 't' then some '\t'
           else if e = 'r' then some '\r' else if e = 'b' then some (Char.ofNat 8)
           else if e = 'f' then some (Char.ofNat 12) else if e = '"' then some '"'
           else if e = '\\' then some '\\' else if e = '/' then some '/' else none) with
        | some ch =>
          match parseStrChars fuel cs1 with
          | some (s, r) => some (ch :: s, r)
          | none => none
        | none => none
    else
      match parseStrChars fuel cs with
      | some (s, r) => some (c :: s, r)
      | none => none

def digitVal (c : Char) : Option ℕ :=
  if c.isDigit then some (c.toNat - 48) else none

def takeDigits : List Char → List ℕ × List Char
  | [] => ([], [])
  | c :: cs =>
    match digitVal c with
    | some d => ((d :: (takeDigits cs).1), (takeDigits cs).2)
    | none => ([], c :: cs)

def digitsToNat (ds : List ℕ) : ℕ := ds.foldl (fun acc d => acc * 10 + d) 0

def parseExpTail (cs : List Char) : Option (ℤ × List Char) :=
  match cs with
  | '+' :: r =>
    match takeDigits r with
    | ([], _) => none
    | (ds, r1) => some ((digitsToNat ds : ℤ), r1)
  | '-' :: r =>
    match takeDigits r with
    | ([], _) => none
    | (ds, r1) => some (-(digitsToNat ds : ℤ), r1)
  | _ =>
    match takeDigits cs with
    | ([], _) => none
    | (ds, r1) => some ((digitsToNat ds : ℤ), r1)

def parseExp : List Char → Option (ℤ × List Char)
  | 'e' :: r => parseExpTail r
  | 'E' :: r => parseExpTail r
  | cs => some (0, cs)

def parseFrac : List Char → Option (ℚ × List Char)
  | '.' :: r =>
    match takeDigits r with
    | ([], _) => none
    | (ds, r1) => some ((digitsToNat ds : ℚ) / (10 : ℚ) ^ ds.length, r1)
  | cs => some ((0 : ℚ), cs)

def parseUnsignedNum (cs : List Char) : Option (ℚ × List Char) :=
  match takeDigits cs with
  | ([], _) => none
  | (ds, r1) =>
    if 1 < ds.length ∧ ds.headD 0 = 0 then none
    else
      match parseFrac r1 with
      | none => none
      | some (f, r2) =>
        match parseExp r2 with
        | none => none
        | some (e, r3) => some (((digitsToNat ds : ℚ) + f) * (10 : ℚ) ^ e, r3)

def parseNum (cs : List Char) : Option (ℚ × List Char) :=
  match cs with
  | '-' :: r =>
    match parseUnsignedNum r with
    | some (q, r1) => some (-q, r1)
    | none => none
  | _ => parseUnsignedNum cs

/-- Parsing task: a single value, the members of an object after the
opening brace, or the elements of an array after the opening bracket. -/
inductive PTask where
  | val
  | members
  | elems

def parseP : ℕ → PTask → List Char → Option (JsonVal × List Char)
  | 0, _, _ => none
  | fuel + 1, .val, cs =>
    match skipWs cs with
    | [] => none
    | c :: rest =>
      if c = '\x7b' then
        match skipWs rest with
        | '\x7d' :: r2 => some (.obj [], r2)
        | r1 => parseP fuel .members r1
      else if c = '[' then
        match skipWs rest with
        | ']' :: r2 => some (.arr [], r2)
        | r1 => parseP fuel .elems r1
      else if c = '"' then
        match parseStrChars (rest.length + 1) rest with
        | some (s, r1) => some (.str (String.mk s), r1)
        | none => none
      else if c = 't' then
        match rest with
        | 'r' :: 'u' :: 'e' :: r => some (.bool true, r)
        | _ => none
      else if c = 'f' then
        match rest with
        | 'a' :: 'l' :: 's' :: 'e' :: r => some (.bool false, r)
        | _ => none
      else if c = 'n' then
        match rest with
        | 'u' :: 'l' :: 'l' :: r => some (.null, r)
        | _ => none
      else
        match parseNum (c :: rest) with
        | some (q, r) => some (.num q, r)
        | none => none
  | fuel + 1, .members, cs =>
    match skipWs cs with
    | '"' :: rest =>
      match parseStrChars (rest.length + 1) rest with
      | none => none
      | some (key, r1) =>
        match skipWs r1 with
        | ':' :: r2 =>
          match parseP fuel .val r2 with
          | none => none
          | some (v, r3) =>
            match skipWs r3 with
            | ',' :: r4 =>
              match parseP fuel .members r4 with
              | some (.obj fields, r5) => some (.obj ((String.mk key, v) :: fields), r5)
              | _ => none
            | '\x7d' :: r4 => some (.obj [(String.mk key, v)], r4)
            | _ => none
        | _ => none
    | _ => none
  | fuel + 1, .elems, cs =>
    match parseP fuel .val cs with
    | none => none
    | some (v, r1) =>
      match skipWs r1 with
      | ',' :: r2 =>
        match parseP fuel .elems r2 with
        | some (.arr es, r3) => some (.arr (v :: es), r3)
        | _ => none
      | ']' :: r2 => some (.arr [v], r2)
      | _ => none

/-- `json.loads` on a character list: one value, then only trailing
whitespace. -/
def jloads (cs : List Char) : Option JsonVal :=
  match parseP (2 * cs.length + 2) .val cs with
  | none => none
  | some (v, rest) => if skipWs rest = [] then some v else none

/-! ## Response parsing and the Groq call (`extract_json` / `call_groq`,
ai_groq_predict_groq.py lines 164-198)

`re.search(r"\x5c\x7b.*\x5c\x7d", text, re.DOTALL)` with a greedy `.*`
matches from the first opening brace to the last closing brace, provided
the last closing brace comes after the first opening brace; `m.group(0)`
is that inclusive slice.  `extract_json` returns `.ok none` when there is
no match (Python `None`), the decoded value on success, and `.error`
when `json.loads` raises. -/

def extract_json (text : String) : Except String (Option JsonVal) :=
  match text.toList.findIdx? (fun c => c = '\x7b') with
  | none => .ok none
  | some i =>
    match text.toList.reverse.findIdx? (fun c => c = '\x7d') with
    | none => .ok none
    | some rj =>
      if i < text.toList.length - 1 - rj then
        match jloads ((text.toList.drop i).take (text.toList.length - 1 - rj - i + 1)) with
        | some v => .ok (some v)
        | none => .error "JSONDecodeError"
      else .ok none

/-- Python truthiness of a decoded JSON value (`if not parsed`). -/
def jsonFalsy : JsonVal → Bool
  | .null => true
  | .bool b => !b
  | .num q => q = 0
  | .str s => s.isEmpty
  | .arr l => l.isEmpty
  | .obj l => l.isEmpty

/-- The fixed fallback prediction returned when no JSON object is found
in the model output. -/
def fallback_prediction : JsonVal :=
  .obj [("recommendation", .str "hold"),
        ("confidence", .num (1/2)),
        ("rationale", .str "Model returned invalid JSON"),
        ("action", .str "Hold position"),
        ("features_used", .arr [])]

/-! ## Pipeline data model and orchestrator (`main`, ai_groq_predict_groq.py lines 204-259)

`Entity` is one event record from `events.json` (a missing or JSON-null
date is `none`).  `Detail` is the enriched record built in step 3 (the
`{**ev, ...}` merge).  External effects are parameters collected in
`PipelineEnv`: the yfinance history fetch and `dateutil` parse may fail,
`json.dumps` and the pandas std are opaque, and `respond` is the Groq
chat-completion call, whose `Except.error` is a raised network/API
exception. -/

structure Entity where
  symbol : String
  company : String
  date : Option String
  purpose : String
  bm_desc : String

/-- `days_to_event` (lines 88-99): `None` for a falsy date string, `None`
when `dateutil` raises, else the day difference to today. -/
def days_to_event (parseDate : String → Option ℤ) (today : ℤ)
    (date_str : Option String) : Option ℤ :=
  match date_str with
  | none => none
  | some s =>
    if s = "" then none
    else
      match parseDate s with
      | none => none
      | some parsed => some (parsed - today)

structure Detail where
  entity : Entity
  days_to_event : Option ℤ
  sentiment_score : ℚ
  sentiment_reason : String
  price : Option PriceFeatures

structure PipelineEnv where
  std : List ℚ → ℚ
  fetchHist : String → Except String (List (Option ℚ × ℚ))
  parseDate : String → Option ℤ
  today : ℤ
  dumps : Detail → String
  respond : String → String → Except String String

/-- Step 3 of `main` for one entity: fetch price features (exceptions
degrade to the empty dict), compute days to event, score sentiment, and
merge into the enriched record. -/
def processEntity (env : PipelineEnv) (ev : Entity) : Detail :=
  { entity := ev
    days_to_event := days_to_event env.parseDate env.today ev.date
    sentiment_score := (purpose_sentiment ev.purpose ev.bm_desc).1
    sentiment_reason := (purpose_sentiment ev.purpose ev.bm_desc).2
    price := fetch_price_features env.std env.fetchHist ev.symbol }

def system_msg_text : String :=
  "You are a financial assistant. Return ONLY JSON with:\n- recommendation (buy/hold/sell)\n- confidence (0-1)\n- rationale (short)\n- action (one sentence)\n- features_used (list)\n"

/-- `build_prompt` (lines 152-162): the fixed system instruction and the
serialized payload. -/
def build_prompt (dumps : Detail → String) (detail : Detail) : String × String :=
  (system_msg_text, dumps detail)

structure LimiterState where
  now : ℚ
  queue : List ℚ

/-- `call_groq` (lines 169-198): throttle, issue the API call, extract the
JSON object from the raw response, and fall back to the fixed `hold`
prediction when nothing (or a falsy value) was parsed.  A raised API
exception or a raised `json.loads` decode error propagates to the
caller. -/
def call_groq (respond : String → String → Except String String)
    (st : LimiterState) (system_msg user_msg : String) :
    Except String (JsonVal × LimiterState) :=
  let p := throttle_requests st.now st.queue
  match respond system_msg user_msg with
  | .error e => .error e
  | .ok raw =>
    match extract_json raw with
    | .error e => .error e
    | .ok none => .ok (fallback_prediction, ⟨p.1, p.2⟩)
    | .ok (some parsed) =>
      if jsonFalsy parsed then .ok (fallback_prediction, ⟨p.1, p.2⟩)
      else .ok (parsed, ⟨p.1, p.2⟩)

structure PredictionRecord where
  symbol : String
  company : String
  input : Detail
  prediction : JsonVal

/-- Step 4 of `main`: one rate-limited Groq call per enriched row, in
order; any exception raised by a call aborts the loop. -/
def predictLoop (respond : String → String → Except String String)
    (dumps : Detail → String) :
    List Detail → LimiterState → Except String (List PredictionRecord)
  | [], _ => .ok []
  | d :: ds, st =>
    match call_groq respond st (build_prompt dumps d).1 (build_prompt dumps d).2 with
    | .error e => .error e
    | .ok (pred, st1) =>
      match predictLoop respond dumps ds st1 with
      | .error e => .error e
      | .ok rest =>
        .ok ({ symbol := d.entity.symbol, company := d.entity.company,
               input := d, prediction := pred } :: rest)

/-- Steps 3-4 of `main` on an already-loaded entity list. -/
def mainRun (env : PipelineEnv) (events : List Entity) :
    Except String (List PredictionRecord) :=
  predictLoop env.respond env.dumps (events.map (processEntity env)) ⟨0, []⟩

/-- C2 (code bug): a model response wrapping non-JSON text in braces makes
`json.loads` raise — `extract_json` does not return the fixed fallback but
propagates a `JSONDecodeError` out of `call_groq`, which aborts the run. -/
theorem extract_json_c2 :
    extract_json "\x7bnot json\x7d" = Except.error "JSONDecodeError" ∧
      call_groq (fun _ _ => Except.ok "\x7bnot json\x7d") ⟨0, []⟩ "sys" "user" =
        Except.error "JSONDecodeError" :=
  ⟨rfl, rfl⟩

/-- A successful run returns one record per row, in order: the inputs are
exactly the rows, and symbol/company are copied from each row's entity. -/
theorem predictLoop_map (respond : String → String → Except String String)
    (dumps : Detail → String) :
    ∀ (rows : List Detail) (st : LimiterState) (out : List PredictionRecord),
      predictLoop respond dumps rows st = Except.ok out →
      out.map (fun r => r.input) = rows ∧
      out.map (fun r => r.symbol) = rows.map (fun d => d.entity.symbol) ∧
      out.map (fun r => r.company) = rows.map (fun d => d.entity.company)
  | [], st, out, h => by
    rw [predictLoop] at h
    simp only [Except.ok.injEq] at h
    subst h
    simp
  | d :: ds, st, out, h => by
    rw [predictLoop] at h
    rcases hc : call_groq respond st (build_prompt dumps d).1 (build_prompt dumps d).2 with
      e | pr
    · rw [hc] at h
      simp at h
    · rw [hc] at h
      rcases pr with ⟨pred, st1⟩
      dsimp only at h
      rcases hr : predictLoop respond dumps ds st1 with e2 | rest
      · rw [hr] at h
        simp at h
      · rw [hr] at h
        simp only [Except.ok.injEq] at h
        subst h
        have ih := predictLoop_map respond dumps ds st1 rest hr
        simp [ih.1, ih.2.1, ih.2.2]

/-- A successful `mainRun` maps the input entities one-to-one, in order. -/
theorem mainRun_map (env : PipelineEnv) (evs : List Entity)
    (out : List PredictionRecord) (h : mainRun env evs = Except.ok out) :
    out.map (fun r => r.input) = evs.map (processEntity env) ∧
    out.map (fun r => r.symbol) = evs.map (fun e => e.symbol) ∧
    out.map (fun r => r.company) = evs.map (fun e => e.company) := by
  have hp := predictLoop_map env.respond env.dumps (evs.map (processEntity env)) ⟨0, []⟩ out h
  refine ⟨hp.1, ?_, ?_⟩
  · rw [hp.2.1, List.map_map]
    rfl
  · rw [hp.2.2, List.map_map]
    rfl

/-- C9: whenever the run completes, the output collection holds exactly
one `PredictionRecord` per input entity, in input order, carrying that
entity's symbol, company and enriched input. -/
theorem mainRun_c9 (env : PipelineEnv) (evs : List Entity)
    (out : List PredictionRecord) (h : mainRun env evs = Except.ok out) :
    out.length = evs.length ∧
    out.map (fun r => r.input) = evs.map (processEntity env) ∧
    out.map (fun r => r.symbol) = evs.map (fun e => e.symbol) ∧
    out.map (fun r => r.company) = evs.map (fun e => e.company) := by
  have hm := mainRun_map env evs out h
  refine ⟨?_, hm.1, hm.2.1, hm.2.2⟩
  have := congrArg List.length hm.1
  simpa using this

/-- Environment whose inference call always answers (with a braceless
response, decoded to the fallback) while every numeric fetch raises and
every date fails to parse. -/
def envOk : PipelineEnv :=
  { std := fun _ => 0
    fetchHist := fun _ => Except.error "Timeout"
    parseDate := fun _ => none
    today := 0
    dumps := fun _ => ""
    respond := fun _ _ => Except.ok "" }

def evTCS : Entity :=
  { symbol := "TCS"
    company := "Tata Consultancy Services"
    date := some "not a date"
    purpose := "Dividend"
    bm_desc := "Board meeting" }

/-- The record `mainRun envOk [evTCS]` produces. -/
def recTCS : PredictionRecord :=
  { symbol := "TCS"
    company := "Tata Consultancy Services"
    input := processEntity envOk evTCS
    prediction := fallback_prediction }

/-- Witness for C9: a one-entity run. -/
theorem mainRun_c9_witness :
    ([recTCS] : List PredictionRecord).length = [evTCS].length ∧
    ([recTCS] : List PredictionRecord).map (fun r => r.input) =
      [evTCS].map (processEntity envOk) ∧
    ([recTCS] : List PredictionRecord).map (fun r => r.symbol) =
      [evTCS].map (fun e => e.symbol) ∧
    ([recTCS] : List PredictionRecord).map (fun r => r.company) =
      [evTCS].map (fun e => e.company) :=
  mainRun_c9 envOk [evTCS] [recTCS] rfl

/-- C1 counterexample: a raised inference exception is not caught by the
orchestrator — with two entities whose Groq call raises, the whole run
aborts with that exception and no entity reaches a terminal record. -/
theorem mainRun_c1_counterexample :
    mainRun
      { std := fun _ => 0
        fetchHist := fun _ => Except.ok []
        parseDate := fun _ => none
        today := 0
        dumps := fun _ => ""
        respond := fun _ _ => Except.error "ConnectionError" }
      [evTCS,
       { symbol := "INFY"
         company := "Infosys"
         date := none
         purpose := "Results"
         bm_desc := "" }] = Except.error "ConnectionError" := rfl

/-- If every inference call returns a response whose decode does not
raise, the loop completes with one record per row, whatever the rows. -/
theorem predictLoop_total (respond : String → String → Except String String)
    (dumps : Detail → String)
    (hresp : ∀ s u, ∃ r, respond s u = Except.ok r ∧ ∃ p, extract_json r = Except.ok p) :
    ∀ (rows : List Detail) (st : LimiterState),
      ∃ out, predictLoop respond dumps rows st = Except.ok out ∧
        out.length = rows.length
  | [], _ => ⟨[], rfl, rfl⟩
  | d :: ds, st => by
    obtain ⟨r, hr, p, hp⟩ := hresp (build_prompt dumps d).1 (build_prompt dumps d).2
    have hcall : ∃ pr, call_groq respond st (build_prompt dumps d).1
        (build_prompt dumps d).2 = Except.ok pr := by
      unfold call_groq
      rw [hr]
      dsimp only
      rw [hp]
      rcases p with - | v
      · exact ⟨_, rfl⟩
      · dsimp only
        by_cases hf : jsonFalsy v
        · rw [if_pos hf]
          exact ⟨_, rfl⟩
        · rw [if_neg hf]
          exact ⟨_, rfl⟩
    obtain ⟨⟨pred, st1⟩, hc⟩ := hcall
    obtain ⟨rest, hrest, hlen⟩ := predictLoop_total respond dumps hresp ds st1
    refine ⟨{ symbol := d.entity.symbol, company := d.entity.company,
              input := d, prediction := pred } :: rest, ?_, ?_⟩
    · rw [predictLoop, hc]
      dsimp only
      rw [hrest]
    · simp [hlen]

/-- C1 (amended): an exception raised by a feature fetch (price history,
date parse) for one entity is caught and degraded to absent features, and
the run continues — for any entity list and any (even always-raising)
fetchers, if no inference call raises and no response decode raises, every
entity reaches a terminal record.  An exception raised by the inference
call itself is, however, not caught and aborts the whole batch. -/
theorem mainRun_c1 (env : PipelineEnv) (evs : List Entity)
    (hresp : ∀ s u, ∃ r, env.respond s u = Except.ok r ∧
      ∃ p, extract_json r = Except.ok p) :
    ∃ out, mainRun env evs = Except.ok out ∧ out.length = evs.length := by
  obtain ⟨out, h1, h2⟩ := predictLoop_total env.respond env.dumps hresp
    (evs.map (processEntity env)) ⟨0, []⟩
  refine ⟨out, h1, ?_⟩
  simpa using h2

/-- Witness for C1 (amended): one entity, all fetches raising, inference
answering a braceless response. -/
theorem mainRun_c1_witness :
    ∃ out, mainRun envOk [evTCS] = Except.ok out ∧ out.length = [evTCS].length :=
  mainRun_c1 envOk [evTCS] (fun _ _ => ⟨"", rfl, none, rfl⟩)

/-- C7: an entity whose date string is missing, empty or unparsable gets
`days_to_event = none`, no exception escapes, and when the run completes
that entity still reaches a terminal record whose enriched input carries
the null `days_to_event`. -/
theorem days_to_event_c7 (env : PipelineEnv) (evs : List Entity)
    (out : List PredictionRecord) (h : mainRun env evs = Except.ok out)
    (i : ℕ) (hi : i < evs.length)
    (hdate : ∀ s, (evs.get ⟨i, hi⟩).date = some s → env.parseDate s = none) :
    days_to_event env.parseDate env.today (evs.get ⟨i, hi⟩).date = none ∧
    (out.get? i).map (fun r => r.input) = some (processEntity env (evs.get ⟨i, hi⟩)) ∧
    (out.get? i).map (fun r => r.input.days_to_event) = some none := by
  have hd : days_to_event env.parseDate env.today (evs.get ⟨i, hi⟩).date = none := by
    unfold days_to_event
    rcases hds : (evs.get ⟨i, hi⟩).date with - | s
    · rfl
    · dsimp only
      by_cases hs : s = ""
      · rw [if_pos hs]
      · rw [if_neg hs, hdate s hds]
  have hm := mainRun_map env evs out h
  have hin : (out.get? i).map (fun r => r.input) =
      some (processEntity env (evs.get ⟨i, hi⟩)) := by
    have h1 := congrArg (fun l => l.get? i) hm.1
    simp only [List.get?_map] at h1
    rw [h1, List.get?_eq_get (by simpa using hi)]
    simp
  refine ⟨hd, hin, ?_⟩
  have h2 := congrArg (Option.map (fun d : Detail => d.days_to_event)) hin
  rw [Option.map_map] at h2
  have hd2 := hd
  simp only [List.get_eq_getElem] at hd2
  simpa [Function.comp, processEntity, hd2] using h2

/-- Witness for C7: the one-entity run with an unparsable date. -/
theorem days_to_event_c7_witness :
    days_to_event envOk.parseDate envOk.today evTCS.date = none ∧
    (([recTCS] : List PredictionRecord).get? 0).map (fun r => r.input) =
      some (processEntity envOk evTCS) ∧
    (([recTCS] : List PredictionRecord).get? 0).map
      (fun r => r.input.days_to_event) = some none :=
  days_to_event_c7 envOk [evTCS] [recTCS] rfl 0 (by norm_num) (fun _ _ => rfl)

end StockDashboard
